import Mathlib

/-!
Verification of the IBHS certificate downloader (src/src/main.js) against its
specification.  The JavaScript pipeline is shallowly embedded: pure string
processing (address normalization, the regex-based field extractors, the
candidate-matching loop) is translated function by function, and the
orchestrator loop of `run` is modelled as a structural recursion over the
input address list, with the browser environment's per-address behaviour
(element visibility, thrown timeouts, capture signals, page text) supplied as
explicit data.  JavaScript regexes are compiled by hand to deterministic
scanners that reproduce leftmost-match, greedy/lazy and ordered-alternation
semantics for the concrete patterns appearing in the source.  Machine-level
aspects (real time, screenshots, the diagnostics sink, Google Drive mirroring)
are outside the embedded state, as in the spec's section 6.
-/

namespace IbhsCert

/-- ASCII approximation of the JavaScript whitespace class used by the
source's regexes and by `String.prototype.trim`. -/
def isWS (c : Char) : Bool :=
  c == ' ' || c == '\t' || c == '\n' || c == '\r' || c == '\x0b' || c == '\x0c'

/-- JavaScript word-character test, the ASCII set matched by a regex word
element. -/
def isWordChar (c : Char) : Bool :=
  ('a' ≤ c && c ≤ 'z') || ('A' ≤ c && c ≤ 'Z') || ('0' ≤ c && c ≤ '9') || c == '_'

/-- Lower-case every character, as `String.prototype.toLowerCase` does on
ASCII input. -/
def lowerStr (l : List Char) : List Char := l.map Char.toLower

/-- One character of the source's punctuation pass: periods and commas
become spaces. -/
def puncF (c : Char) : Char := if c == '.' || c == ',' then ' ' else c

/-- The source's second normalization step: the global replacement of a
period-or-comma class by a space. -/
def punctToSpace (l : List Char) : List Char := l.map puncF

/-- Worker for whitespace collapsing; the flag records whether the previous
character belonged to a whitespace run already replaced by one space. -/
def collapseGo : Bool → List Char → List Char
  | _, [] => []
  | prevWS, c :: cs =>
    if isWS c then
      if prevWS then collapseGo true cs else ' ' :: collapseGo true cs
    else c :: collapseGo false cs

/-- The source's third normalization step: every maximal whitespace run is
replaced by a single space. -/
def collapseWS (l : List Char) : List Char := collapseGo false l

/-- Drop leading whitespace. -/
def ltrimWS (l : List Char) : List Char := l.dropWhile isWS

/-- Drop trailing whitespace. -/
def rtrimWS (l : List Char) : List Char := (l.reverse.dropWhile isWS).reverse

/-- The behaviour of `String.prototype.trim` on the character list. -/
def trimWS (l : List Char) : List Char := rtrimWS (ltrimWS l)

/-- `trim` lifted back to strings, used wherever the source calls
`.trim()`. -/
def jsTrim (s : String) : String := ⟨trimWS s.data⟩

/-- The alternation of the unit-removal regex, in source order: the first
alternative that matches at a position and is followed by a word boundary
wins. -/
def unitWords : List (List Char) :=
  [("apt").toList, ("apartment").toList, ("ste").toList,
   ("suite").toList, ("unit").toList]

/-- Word-boundary test for the position after a matched unit word: end of
input or a non-word character. -/
def notWordHead : List Char → Bool
  | [] => true
  | d :: _ => !isWordChar d

/-- Try each unit word in alternation order; on success return the remainder
after the word (the boundary after the word is part of the match
condition). -/
def matchUnitWord : List (List Char) → List Char → Option (List Char)
  | [], _ => none
  | w :: ws, l =>
    if l.take w.length == w && notWordHead (l.drop w.length) then
      some (l.drop w.length)
    else matchUnitWord ws l

/-- Match the unit-removal regex at the current position (the leading word
boundary is checked by the caller): a unit word with a trailing boundary,
optional whitespace, then a maximal nonempty word-character run.  Returns
the remainder after the whole match. -/
def matchUnitAt (l : List Char) : Option (List Char) :=
  match matchUnitWord unitWords l with
  | none => none
  | some rest1 =>
    let rest2 := rest1.dropWhile isWS
    if isWordChar (rest2.headD ' ') then some (rest2.dropWhile isWordChar)
    else none

/-- Global scan of the unit-removal regex, fuelled so the kernel can evaluate
it: `prevWord` tracks whether the previous character of the original string
was a word character (for the leading boundary).  Each match consumes at
least one character, so fuel equal to the input length suffices. -/
def removeUnitsFuel : Nat → Bool → List Char → List Char
  | 0, _, l => l
  | _ + 1, _, [] => []
  | fuel + 1, prevWord, c :: cs =>
    if prevWord then c :: removeUnitsFuel fuel (isWordChar c) cs
    else
      match matchUnitAt (c :: cs) with
      | some rest => removeUnitsFuel fuel true rest
      | none => c :: removeUnitsFuel fuel (isWordChar c) cs

/-- The source's fourth normalization step, the global removal of
unit/suite tokens. -/
def removeUnits (l : List Char) : List Char := removeUnitsFuel l.length false l

/-- The source's `normalizeAddress`: lower-case, punctuation to spaces,
whitespace collapsed, unit tokens removed, then trimmed — in exactly that
order. -/
def normalizeAddress (s : String) : String :=
  ⟨trimWS (removeUnits (collapseWS (punctToSpace (lowerStr s.data))))⟩

/-- Boolean list-prefix test (used for substring search and for reasoning
about the scanners). -/
def isPre : List Char → List Char → Bool
  | [], _ => true
  | _ :: _, [] => false
  | a :: as, b :: bs => a == b && isPre as bs

/-- Boolean contiguous-substring test, the semantics of
`String.prototype.includes`. -/
def hasSeg (w : List Char) : List Char → Bool
  | [] => isPre w []
  | c :: cs => isPre w (c :: cs) || hasSeg w cs

/-- The input contains no unit/suite token as a contiguous substring. -/
def unitFree (l : List Char) : Bool := unitWords.all fun w => !hasSeg w l

/-- Head of the list is absent or not whitespace. -/
def headNotWS : List Char → Bool
  | [] => true
  | d :: _ => !isWS d

/-- Canonical whitespace shape: every whitespace character is a plain space
and no two whitespace characters are adjacent. -/
def canonWS : List Char → Bool
  | [] => true
  | c :: cs => (!isWS c || c == ' ') && (!isWS c || headNotWS cs) && canonWS cs

theorem toLower_idem (c : Char) : Char.toLower (Char.toLower c) = Char.toLower c := by
  by_cases h : Char.toNat c ≥ 65 ∧ Char.toNat c ≤ 90
  · have h1 : Char.toLower c = Char.ofNat (Char.toNat c + 32) := by
      unfold Char.toLower; simp [h]
    rw [h1]
    obtain ⟨ha, hb⟩ := h
    clear h1
    generalize Char.toNat c = m at ha hb
    interval_cases m <;> decide
  · have h1 : Char.toLower c = c := by
      unfold Char.toLower; simp [h]
    rw [h1, h1]

theorem puncF_puncF (c : Char) : puncF (puncF c) = puncF c := by
  unfold puncF
  by_cases h : c == '.' || c == ','
  · simp [h]
  · simp [h]

theorem mem_collapseGo {c : Char} : ∀ (b : Bool) (l : List Char),
    c ∈ collapseGo b l → c = ' ' ∨ c ∈ l := by
  intro b l
  induction l generalizing b with
  | nil => intro h; simp [collapseGo] at h
  | cons d ds ih =>
    intro h
    by_cases hd : isWS d
    · simp only [collapseGo, hd, if_true] at h
      by_cases hb : b
      · subst hb
        simp only [if_true] at h
        rcases ih true h with h' | h'
        · exact Or.inl h'
        · exact Or.inr (List.mem_cons_of_mem _ h')
      · simp only [hb, if_false] at h
        rcases List.mem_cons.mp h with h' | h'
        · exact Or.inl h'
        · rcases ih true h' with h'' | h''
          · exact Or.inl h''
          · exact Or.inr (List.mem_cons_of_mem _ h'')
    · simp only [collapseGo, hd, if_false] at h
      rcases List.mem_cons.mp h with h' | h'
      · exact Or.inr (h' ▸ List.mem_cons_self _ _)
      · rcases ih false h' with h'' | h''
        · exact Or.inl h''
        · exact Or.inr (List.mem_cons_of_mem _ h'')

theorem headNotWS_collapseGo_true : ∀ l : List Char, headNotWS (collapseGo true l) = true := by
  intro l
  induction l with
  | nil => rfl
  | cons d ds ih =>
    cases hd : isWS d with
    | true => simpa [collapseGo, hd] using ih
    | false => simp [collapseGo, hd, headNotWS]

theorem canonWS_collapseGo : ∀ (l : List Char) (b : Bool), canonWS (collapseGo b l) = true := by
  intro l
  induction l with
  | nil => intro b; rfl
  | cons d ds ih =>
    intro b
    cases hd : isWS d with
    | true =>
      cases b with
      | true => simpa [collapseGo, hd] using ih true
      | false =>
        have h1 := headNotWS_collapseGo_true ds
        have h2 := ih true
        have hstep : collapseGo false (d :: ds) = ' ' :: collapseGo true ds := by
          simp [collapseGo, hd]
        rw [hstep]
        simp [canonWS, isWS, h1, h2]
    | false =>
      have h2 := ih false
      simp [collapseGo, hd, canonWS, h2]

theorem collapseGo_eq_self : ∀ l : List Char, canonWS l = true →
    ∀ b : Bool, (b = true → headNotWS l = true) → collapseGo b l = l := by
  intro l
  induction l with
  | nil => intro _ b _; rfl
  | cons d ds ih =>
    intro hc b hb
    simp only [canonWS, Bool.and_eq_true] at hc
    obtain ⟨⟨hsp, hnext⟩, hcs⟩ := hc
    cases hd : isWS d with
    | true =>
      have hb' : b = false := by
        cases b with
        | false => rfl
        | true =>
          have hx := hb rfl
          rw [headNotWS] at hx
          rw [hd] at hx
          cases hx
      subst hb'
      rw [hd] at hsp hnext
      simp only [Bool.not_true, Bool.false_or] at hsp hnext
      have hdsp : d = ' ' := beq_iff_eq.mp hsp
      have hrec : collapseGo true ds = ds := ih hcs true fun _ => hnext
      have hsp' : isWS ' ' = true := by decide
      simp [collapseGo, hdsp, hsp', hrec]
    | false =>
      have hrec : collapseGo false ds = ds := ih hcs false (by simp)
      simp [collapseGo, hd, hrec]

theorem canonWS_append_right : ∀ a b : List Char,
    canonWS (a ++ b) = true → canonWS b = true := by
  intro a b
  induction a with
  | nil => intro h; exact h
  | cons c cs ih =>
    intro h
    simp only [List.cons_append, canonWS, Bool.and_eq_true] at h
    exact ih h.2

theorem canonWS_append_left : ∀ a b : List Char,
    canonWS (a ++ b) = true → canonWS a = true := by
  intro a b
  induction a with
  | nil => intro _; rfl
  | cons c cs ih =>
    intro h
    simp only [List.cons_append, canonWS, Bool.and_eq_true] at h
    obtain ⟨⟨hsp, hnext⟩, hrest⟩ := h
    simp only [canonWS, Bool.and_eq_true]
    refine And.intro (And.intro hsp ?_) (ih hrest)
    cases cs with
    | nil => simp [headNotWS]
    | cons d ds =>
      simpa only [List.cons_append, headNotWS] using hnext

theorem ltrim_append_eq (l : List Char) :
    l.takeWhile isWS ++ ltrimWS l = l := List.takeWhile_append_dropWhile ..

theorem rtrim_append_eq (l : List Char) :
    rtrimWS l ++ (l.reverse.takeWhile isWS).reverse = l := by
  unfold rtrimWS
  rw [← List.reverse_append, List.takeWhile_append_dropWhile, List.reverse_reverse]

theorem canonWS_trimWS {l : List Char} (h : canonWS l = true) :
    canonWS (trimWS l) = true := by
  unfold trimWS
  have h1 : canonWS (ltrimWS l) = true := by
    have := ltrim_append_eq l
    exact canonWS_append_right _ _ (this ▸ h)
  have := rtrim_append_eq (ltrimWS l)
  exact canonWS_append_left _ _ (this ▸ h1)

theorem mem_trimWS {c : Char} {l : List Char} (h : c ∈ trimWS l) : c ∈ l := by
  have h1 : c ∈ ltrimWS l := by
    have := rtrim_append_eq (ltrimWS l)
    rw [← this]
    exact List.mem_append_left _ h
  rw [← ltrim_append_eq l]
  exact List.mem_append_right _ h1

theorem headNotWS_ltrim (l : List Char) : headNotWS (ltrimWS l) = true := by
  unfold ltrimWS
  cases hd : l.dropWhile isWS with
  | nil => rfl
  | cons c cs =>
    have := List.head?_dropWhile_not isWS l
    rw [hd] at this
    simp only [List.head?, Option.all_some] at this
    simpa [headNotWS] using this

theorem headNotWS_rtrim {l : List Char} (h : headNotWS l = true) :
    headNotWS (rtrimWS l) = true := by
  cases hr : rtrimWS l with
  | nil => rfl
  | cons c cs =>
    have hdec := rtrim_append_eq l
    rw [hr] at hdec
    rw [← hdec] at h
    simpa [headNotWS] using h

theorem ltrim_eq_self {l : List Char} (h : headNotWS l = true) : ltrimWS l = l := by
  cases l with
  | nil => rfl
  | cons c cs =>
    simp only [headNotWS, Bool.not_eq_true'] at h
    simp [ltrimWS, List.dropWhile, h]

theorem dropWhile_dropWhile (p : Char → Bool) (l : List Char) :
    List.dropWhile p (List.dropWhile p l) = List.dropWhile p l := by
  cases hd : l.dropWhile p with
  | nil => rfl
  | cons c cs =>
    have := List.head?_dropWhile_not p l
    rw [hd] at this
    simp only [List.head?, Option.all_some] at this
    simp [List.dropWhile, this]

theorem rtrim_rtrim (l : List Char) : rtrimWS (rtrimWS l) = rtrimWS l := by
  unfold rtrimWS
  rw [List.reverse_reverse, dropWhile_dropWhile]

theorem trim_idem (l : List Char) : trimWS (trimWS l) = trimWS l := by
  unfold trimWS
  have h1 : headNotWS (ltrimWS l) = true := headNotWS_ltrim l
  have h2 : headNotWS (rtrimWS (ltrimWS l)) = true := headNotWS_rtrim h1
  rw [ltrim_eq_self h2, rtrim_rtrim]

theorem mapId {f : Char → Char} : ∀ l : List Char, (∀ c ∈ l, f c = c) → l.map f = l := by
  intro l
  induction l with
  | nil => intro _; rfl
  | cons c cs ih =>
    intro h
    simp only [List.map_cons]
    rw [h c (List.mem_cons_self _ _), ih fun d hd => h d (List.mem_cons_of_mem _ hd)]

theorem isPre_of_take_eq : ∀ (w l : List Char), l.take w.length = w → isPre w l = true := by
  intro w
  induction w with
  | nil => intro l _; rfl
  | cons a as ih =>
    intro l h
    cases l with
    | nil => simp at h
    | cons b bs =>
      simp only [List.length_cons, List.take_succ_cons, List.cons.injEq] at h
      simp only [isPre, Bool.and_eq_true, beq_iff_eq]
      exact ⟨h.1.symm, ih bs h.2⟩

theorem matchUnitWord_implies_isPre : ∀ (ws : List (List Char)) (l r : List Char),
    matchUnitWord ws l = some r → ∃ w ∈ ws, isPre w l = true := by
  intro ws
  induction ws with
  | nil => intro l r h; simp [matchUnitWord] at h
  | cons w ws' ih =>
    intro l r h
    simp only [matchUnitWord] at h
    by_cases hc : (l.take w.length == w && notWordHead (l.drop w.length)) = true
    · rw [if_pos hc] at h
      simp only [Bool.and_eq_true, beq_iff_eq] at hc
      exact ⟨w, List.mem_cons_self _ _, isPre_of_take_eq w l hc.1⟩
    · rw [if_neg hc] at h
      obtain ⟨w', hw', hp⟩ := ih l r h
      exact ⟨w', List.mem_cons_of_mem _ hw', hp⟩

theorem hasSeg_of_isPre {w l : List Char} (h : isPre w l = true) : hasSeg w l = true := by
  cases l with
  | nil => exact h
  | cons c cs => simp [hasSeg, h]

theorem hasSeg_cons {w : List Char} {c : Char} {cs : List Char}
    (h : hasSeg w cs = true) : hasSeg w (c :: cs) = true := by
  simp [hasSeg, h]

theorem isPre_append {w a : List Char} (b : List Char) (h : isPre w a = true) :
    isPre w (a ++ b) = true := by
  induction w generalizing a with
  | nil => rfl
  | cons x xs ih =>
    cases a with
    | nil => simp [isPre] at h
    | cons y ys =>
      simp only [isPre, Bool.and_eq_true] at h
      simp only [List.cons_append, isPre, Bool.and_eq_true]
      exact ⟨h.1, ih h.2⟩

theorem hasSeg_append_right {w b : List Char} (a : List Char) (h : hasSeg w b = true) :
    hasSeg w (a ++ b) = true := by
  induction a with
  | nil => exact h
  | cons c cs ih => exact hasSeg_cons ih

theorem hasSeg_nil_word : ∀ l : List Char, hasSeg [] l = true := by
  intro l
  cases l with
  | nil => rfl
  | cons c cs => simp [hasSeg, isPre]

theorem hasSeg_append_left {w a : List Char} (b : List Char) (h : hasSeg w a = true) :
    hasSeg w (a ++ b) = true := by
  induction a with
  | nil =>
    cases w with
    | nil => exact hasSeg_nil_word b
    | cons x xs => simp [hasSeg, isPre] at h
  | cons c cs ih =>
    simp only [hasSeg, Bool.or_eq_true] at h
    rcases h with h | h
    · simp only [List.cons_append, hasSeg, Bool.or_eq_true]
      exact Or.inl (isPre_append b h)
    · simp only [List.cons_append, hasSeg, Bool.or_eq_true]
      exact Or.inr (ih h)

theorem unitFree_iff {l : List Char} :
    unitFree l = true ↔ ∀ w ∈ unitWords, hasSeg w l = false := by
  unfold unitFree
  rw [List.all_eq_true]
  constructor
  · intro h w hw
    have := h w hw
    simpa using this
  · intro h w hw
    simp [h w hw]

theorem unitFree_trimWS {l : List Char} (h : unitFree l = true) :
    unitFree (trimWS l) = true := by
  rw [unitFree_iff] at h ⊢
  intro w hw
  by_contra hne
  have hseg : hasSeg w (trimWS l) = true := by
    cases hx : hasSeg w (trimWS l) with
    | true => rfl
    | false => exact absurd hx hne
  have : hasSeg w l = true := by
    have h1 : hasSeg w (ltrimWS l) = true := by
      have hdec := rtrim_append_eq (ltrimWS l)
      rw [← hdec]
      exact hasSeg_append_left _ hseg
    rw [← ltrim_append_eq l]
    exact hasSeg_append_right _ h1
  rw [h w hw] at this
  cases this

theorem unitFree_cons {c : Char} {cs : List Char} (h : unitFree (c :: cs) = true) :
    unitFree cs = true := by
  rw [unitFree_iff] at h ⊢
  intro w hw
  by_contra hne
  have hseg : hasSeg w cs = true := by
    cases hx : hasSeg w cs with
    | true => rfl
    | false => exact absurd hx hne
  have := hasSeg_cons (c := c) hseg
  rw [h w hw] at this
  cases this

theorem removeUnitsFuel_eq_self : ∀ (fuel : Nat) (b : Bool) (l : List Char),
    unitFree l = true → removeUnitsFuel fuel b l = l := by
  intro fuel
  induction fuel with
  | zero => intro b l _; rfl
  | succ n ih =>
    intro b l hl
    cases l with
    | nil => rfl
    | cons c cs =>
      have hcs : unitFree cs = true := unitFree_cons hl
      cases b with
      | true =>
        simp [removeUnitsFuel, ih (isWordChar c) cs hcs]
      | false =>
        cases hm : matchUnitAt (c :: cs) with
        | some rest =>
          exfalso
          unfold matchUnitAt at hm
          cases hmw : matchUnitWord unitWords (c :: cs) with
          | none => rw [hmw] at hm; cases hm
          | some r1 =>
            obtain ⟨w, hw, hp⟩ := matchUnitWord_implies_isPre unitWords (c :: cs) r1 hmw
            have hseg := hasSeg_of_isPre hp
            rw [(unitFree_iff.mp hl) w hw] at hseg
            cases hseg
        | none =>
          simp [removeUnitsFuel, hm, ih (isWordChar c) cs hcs]

theorem removeUnits_eq_self {l : List Char} (h : unitFree l = true) :
    removeUnits l = l := removeUnitsFuel_eq_self _ _ _ h

theorem mem_normalized_core {x : List Char} {c : Char}
    (h : c ∈ collapseWS (punctToSpace (lowerStr x))) :
    Char.toLower c = c ∧ puncF c = c := by
  rcases mem_collapseGo false _ h with h' | h'
  · subst h'; exact ⟨by decide, by decide⟩
  · simp only [punctToSpace, List.mem_map] at h'
    obtain ⟨a, ha, rfl⟩ := h'
    simp only [lowerStr, List.mem_map] at ha
    obtain ⟨e, _, rfl⟩ := ha
    by_cases hc : (Char.toLower e == '.' || Char.toLower e == ',') = true
    · have : puncF (Char.toLower e) = ' ' := by unfold puncF; rw [if_pos hc]
      rw [this]
      exact ⟨by decide, by decide⟩
    · have hpe : puncF (Char.toLower e) = Char.toLower e := by unfold puncF; rw [if_neg hc]
      rw [hpe]
      constructor
      · exact toLower_idem e
      · exact hpe

/-- C1 (amended): `normalizeAddress` is idempotent on every input whose
lower-cased, punctuation-stripped, whitespace-collapsed form contains no
unit/suite token (apt, apartment, ste, suite, unit).  The unrestricted
claim is false because the unit-removal pass runs after whitespace
collapsing and can leave a double space, see the counterexample. -/
theorem normalizeAddress_idem_of_unitFree (s : String)
    (h : unitFree (collapseWS (punctToSpace (lowerStr s.data))) = true) :
    normalizeAddress (normalizeAddress s) = normalizeAddress s := by
  have hinner : normalizeAddress s = ⟨trimWS (collapseWS (punctToSpace (lowerStr s.data)))⟩ := by
    unfold normalizeAddress
    rw [removeUnits_eq_self h]
  set t := collapseWS (punctToSpace (lowerStr s.data)) with ht
  rw [hinner]
  show String.mk (trimWS (removeUnits (collapseWS (punctToSpace (lowerStr (trimWS t)))))) =
    String.mk (trimWS t)
  have hmem : ∀ c ∈ trimWS t, Char.toLower c = c ∧ puncF c = c := fun c hc =>
    mem_normalized_core (ht ▸ mem_trimWS hc)
  have hlow : lowerStr (trimWS t) = trimWS t := mapId _ fun c hc => (hmem c hc).1
  have hpun : punctToSpace (trimWS t) = trimWS t := mapId _ fun c hc => (hmem c hc).2
  have hcanon : canonWS t = true := by rw [ht]; exact canonWS_collapseGo _ _
  have hcol : collapseWS (trimWS t) = trimWS t :=
    collapseGo_eq_self _ (canonWS_trimWS hcanon) false (by simp)
  have huf : unitFree (trimWS t) = true := unitFree_trimWS h
  rw [hlow, hpun, hcol, removeUnits_eq_self huf, trim_idem]

/-- C1 counterexample: normalization is not idempotent on the code —
removing the unit token "Apt 4" happens after whitespace collapsing and
leaves a double space that only a second application collapses. -/
theorem normalizeAddress_not_idem_cex :
    normalizeAddress (normalizeAddress ("123 Main St Apt 4 Mobile")) ≠
      normalizeAddress ("123 Main St Apt 4 Mobile") := by
  decide

/-- C1 witness: the amended idempotence theorem applied to the spec's own
example address, which contains no unit token. -/
theorem normalizeAddress_idem_witness :
    unitFree (collapseWS (punctToSpace (lowerStr ("520 Novatan Rd S, Mobile, AL 36608").data)))
      = true ∧
    normalizeAddress (normalizeAddress ("520 Novatan Rd S, Mobile, AL 36608")) =
      normalizeAddress ("520 Novatan Rd S, Mobile, AL 36608") :=
  ⟨by decide, normalizeAddress_idem_of_unitFree _ (by decide)⟩

/-!
The field extractors of `extractFHNumber` and `extractCertificateInfo`
(src/src/main.js lines 278-464).  Each JavaScript regex is compiled to a
scanner over the character list; scanners reproduce leftmost match,
greedy and lazy quantifier behaviour and ordered alternation for the
concrete patterns of the source.  Captures are the original-case matched
text, as in JavaScript.
-/

/-- Case-insensitive literal match (the i flag); returns the remainder. -/
def litCI : List Char → List Char → Option (List Char)
  | [], l => some l
  | _ :: _, [] => none
  | w :: ws, c :: cs => if c.toLower == w.toLower then litCI ws cs else none

/-- One-or-more whitespace, maximal munch (equivalent to backtracking here
because every following pattern element rejects whitespace). -/
def wsPlus (l : List Char) : Option (List Char) :=
  match l with
  | [] => none
  | c :: cs => if isWS c then some (cs.dropWhile isWS) else none

/-- The colon-or-whitespace character class of the label patterns. -/
def colonWS (c : Char) : Bool := c == ':' || isWS c

/-- One-or-more of the colon/whitespace class, maximal munch. -/
def colonWSPlus (l : List Char) : Option (List Char) :=
  match l with
  | [] => none
  | c :: cs => if colonWS c then some (cs.dropWhile colonWS) else none

/-- Exactly `n` characters of a class, as a bounded regex quantifier. -/
def takeExact (p : Char → Bool) : Nat → List Char → Option (List Char × List Char)
  | 0, l => some ([], l)
  | _ + 1, [] => none
  | n + 1, c :: cs =>
    if p c then (takeExact p n cs).map (fun pr => (c :: pr.1, pr.2)) else none

/-- A single mandatory literal character. -/
def expectChar (x : Char) (l : List Char) : Option (List Char) :=
  match l with
  | [] => none
  | c :: cs => if c == x then some cs else none

/-- The date shape of the extraction patterns: two digits, slash, two
digits, slash, four digits.  Returns the captured text. -/
def matchDate (l : List Char) : Option (List Char) := do
  let (d1, r1) ← takeExact Char.isDigit 2 l
  let r2 ← expectChar '/' r1
  let (d2, r3) ← takeExact Char.isDigit 2 r2
  let r4 ← expectChar '/' r3
  let (d4, _) ← takeExact Char.isDigit 4 r4
  some (d1 ++ '/' :: d2 ++ '/' :: d4)

/-- First variant of the Approved-At pattern: the label, whitespace, "At",
optional colon/whitespace, then a captured date. -/
def mApproved1 (l : List Char) : Option (List Char) := do
  let r1 ← litCI (("approved").toList) l
  let r2 ← wsPlus r1
  let r3 ← litCI (("at").toList) r2
  matchDate (r3.dropWhile colonWS)

/-- Second variant: the bare label then a captured date. -/
def mApproved2 (l : List Char) : Option (List Char) := do
  let r1 ← litCI (("approved").toList) l
  matchDate (r1.dropWhile colonWS)

/-- First variant of the Expiration-Date pattern. -/
def mExpiration1 (l : List Char) : Option (List Char) := do
  let r1 ← litCI (("expiration").toList) l
  let r2 ← wsPlus r1
  let r3 ← litCI (("date").toList) r2
  matchDate (r3.dropWhile colonWS)

/-- Second variant of the Expiration pattern. -/
def mExpiration2 (l : List Char) : Option (List Char) := do
  let r1 ← litCI (("expiration").toList) l
  matchDate (r1.dropWhile colonWS)

/-- The letter-or-whitespace class of the address/city/state captures. -/
def addrChar (c : Char) : Bool := c.isAlpha || isWS c

/-- The street-suffix alternation of the first Building-Address pattern,
in source order (so "Dr" shadows "Drive", as in the regex engine). -/
def streetSuffixes : List (List Char) :=
  [("dr").toList, ("drive").toList, ("rd").toList, ("road").toList, ("st").toList,
   ("street").toList, ("ave").toList, ("avenue").toList, ("ln").toList, ("lane").toList,
   ("way").toList, ("cir").toList, ("circle").toList, ("blvd").toList, ("boulevard").toList]

/-- The optional direction class at the end of the address capture. -/
def nsewChar (c : Char) : Bool :=
  c == 'N' || c == 'S' || c == 'E' || c == 'W' ||
  c == 'n' || c == 's' || c == 'e' || c == 'w'

/-- The optional tail after a street suffix: an optional period, optional
whitespace and an optional direction letter, all greedy.  Returns the
consumed text and the remainder. -/
def optDotWsNsew (l : List Char) : List Char × List Char :=
  let dotPair : List Char × List Char :=
    match l with
    | '.' :: cs => (['.'], cs)
    | _ => ([], l)
  let ws := dotPair.2.takeWhile isWS
  let r2 := dotPair.2.dropWhile isWS
  match r2 with
  | c :: cs => if nsewChar c then (dotPair.1 ++ ws ++ [c], cs) else (dotPair.1 ++ ws, r2)
  | [] => (dotPair.1 ++ ws, [])

/-- Try the street-suffix alternatives in order; on the first literal hit
consume the optional tail.  Returns the consumed text and remainder. -/
def suffixAlt : List (List Char) → List Char → Option (List Char × List Char)
  | [], _ => none
  | w :: ws, l =>
    match litCI w l with
    | some _ =>
      let pr := optDotWsNsew (l.drop w.length)
      some (l.take w.length ++ pr.1, pr.2)
    | none => suffixAlt ws l

/-- Greedy backtracking of the letter/whitespace run before the street
suffix: try the longest run first and release one character at a time.
The first argument is the reversed remaining run. -/
def shrinkGo : List Char → List Char → Option (List Char × List Char)
  | [], _ => none
  | c :: revRest, rem =>
    match suffixAlt streetSuffixes rem with
    | some (suf, _) => some ((c :: revRest).reverse, suf)
    | none => shrinkGo revRest (c :: rem)

/-- First Building-Address variant: label, digits, whitespace, a greedy
letter/whitespace run that must end at a street suffix. -/
def mAddr1 (l : List Char) : Option (List Char) := do
  let r1 ← litCI (("building").toList) l
  let r2 ← wsPlus r1
  let r3 ← litCI (("address").toList) r2
  let r4 ← colonWSPlus r3
  let ds := r4.takeWhile Char.isDigit
  let r5 := r4.dropWhile Char.isDigit
  if ds.isEmpty then none
  else
    match r5 with
    | [] => none
    | w :: r6 =>
      if isWS w then
        let run := r6.takeWhile addrChar
        let rem := r6.dropWhile addrChar
        match shrinkGo run.reverse rem with
        | some (cls, suf) => some (ds ++ w :: (cls ++ suf))
        | none => none
      else none

/-- Second Building-Address variant: label, digits, whitespace and a
maximal letter/whitespace run. -/
def mAddr2 (l : List Char) : Option (List Char) := do
  let r1 ← litCI (("building").toList) l
  let r2 ← wsPlus r1
  let r3 ← litCI (("address").toList) r2
  let r4 ← colonWSPlus r3
  let ds := r4.takeWhile Char.isDigit
  let r5 := r4.dropWhile Char.isDigit
  if ds.isEmpty then none
  else
    match r5 with
    | [] => none
    | w :: r6 =>
      if isWS w then
        let run := r6.takeWhile addrChar
        if run.isEmpty then none else some (ds ++ w :: run)
      else none

/-- Does one of the city terminator alternatives match at this position? -/
def cityTermHit (l : List Char) : Bool :=
  (match wsPlus l with
   | some r => (litCI (("building").toList) r).isSome
   | none => false) ||
  (match wsPlus l with
   | some r => (litCI (("mobile").toList) r).isSome
   | none => false) ||
  (match wsPlus l with
   | some r => (litCI (("al").toList) r).isSome
   | none => false) ||
  (match wsPlus l with
   | some r => (takeExact Char.isDigit 5 r).isSome
   | none => false) ||
  (litCI (("hazard").toList) l).isSome

/-- The lazy letter/whitespace capture of the Building-City pattern: grow
from one character until a terminator matches. -/
def lazyGrow (acc : List Char) : List Char → Option (List Char)
  | [] => none
  | c :: cs =>
    if addrChar c then
      if cityTermHit cs then some (acc ++ [c])
      else lazyGrow (acc ++ [c]) cs
    else none

/-- The Building-City pattern. -/
def mCity (l : List Char) : Option (List Char) := do
  let r1 ← litCI (("building").toList) l
  let r2 ← wsPlus r1
  let r3 ← litCI (("city").toList) r2
  let r4 ← colonWSPlus r3
  lazyGrow [] r4

/-- First Building-State variant: two letters, a dash and a
letter/whitespace run, whitespace allowed around the dash. -/
def mState1 (l : List Char) : Option (List Char) := do
  let r1 ← litCI (("building").toList) l
  let r2 ← wsPlus r1
  let r3 ← litCI (("state").toList) r2
  let r4 ← colonWSPlus r3
  let (ab, r5) ← takeExact Char.isAlpha 2 r4
  let w1 := r5.takeWhile isWS
  let r6 := r5.dropWhile isWS
  let r7 ← expectChar '-' r6
  let w2 := r7.takeWhile isWS
  let r8 := r7.dropWhile isWS
  let run := r8.takeWhile addrChar
  if run.isEmpty then none else some (ab ++ w1 ++ '-' :: (w2 ++ run))

/-- Second Building-State variant: just two letters after the label. -/
def mState2 (l : List Char) : Option (List Char) := do
  let r1 ← litCI (("building").toList) l
  let r2 ← wsPlus r1
  let r3 ← litCI (("state").toList) r2
  let r4 ← colonWSPlus r3
  let (ab, _) ← takeExact Char.isAlpha 2 r4
  some ab

/-- First Building-Zip variant: five digits after the label. -/
def mZip1 (l : List Char) : Option (List Char) := do
  let r1 ← litCI (("building").toList) l
  let r2 ← wsPlus r1
  let r3 ← litCI (("zip").toList) r2
  let r4 ← colonWSPlus r3
  let (d, _) ← takeExact Char.isDigit 5 r4
  some d

/-- Second Building-Zip variant: five digits followed by "Hazard Type". -/
def mZip2 (l : List Char) : Option (List Char) := do
  let (d, r1) ← takeExact Char.isDigit 5 l
  let r2 ← wsPlus r1
  let r3 ← litCI (("hazard").toList) r2
  let r4 ← wsPlus r3
  let _ ← litCI (("type").toList) r4
  some d

/-- Leftmost-match scan: try the pattern at every position, left to
right. -/
def scanFirst (m : List Char → Option (List Char)) : List Char → Option (List Char)
  | [] => m []
  | c :: cs =>
    match m (c :: cs) with
    | some r => some r
    | none => scanFirst m cs

/-- The per-field pattern loop of the source: patterns are tried in order
and the loop breaks at the first match. -/
def firstPattern : List (List Char → Option (List Char)) → List Char → Option (List Char)
  | [], _ => none
  | p :: ps, t =>
    match scanFirst p t with
    | some cap => some cap
    | none => firstPattern ps t

/-- The record assembled by `extractCertificateInfo`; every field is
independently nullable. -/
structure CertInfo where
  approvedAt : Option String
  expirationDate : Option String
  buildingAddress : Option String
  buildingCity : Option String
  buildingState : Option String
  buildingZip : Option String
deriving DecidableEq

/-- The all-null record, also returned on a caught exception. -/
def certNull : CertInfo := ⟨none, none, none, none, none, none⟩

def approvedPatterns : List (List Char → Option (List Char)) := [mApproved1, mApproved2]

def expirationPatterns : List (List Char → Option (List Char)) := [mExpiration1, mExpiration2]

def addressPatterns : List (List Char → Option (List Char)) := [mAddr1, mAddr2]

def cityPatterns : List (List Char → Option (List Char)) := [mCity]

def statePatterns : List (List Char → Option (List Char)) := [mState1, mState2]

def zipPatterns : List (List Char → Option (List Char)) := [mZip1, mZip2]

/-- The source's `pageText.replace` whitespace normalization followed by
trim, applied to the body text before extraction. -/
def normPageText (s : String) : List Char := trimWS (collapseWS s.data)

/-- `extractCertificateInfo` over the body text of the rendered view; a
`none` body models `textContent` returning null, which in the source
throws and is converted by the catch block into the all-null record. -/
def extractCertificateInfo : Option String → CertInfo
  | none => certNull
  | some s =>
    let t := normPageText s
    { approvedAt := (firstPattern approvedPatterns t).map fun c => String.mk c
      expirationDate := (firstPattern expirationPatterns t).map fun c => String.mk c
      buildingAddress :=
        (firstPattern addressPatterns t).map fun c => String.mk (collapseWS (trimWS c))
      buildingCity := (firstPattern cityPatterns t).map fun c => String.mk (trimWS c)
      buildingState := (firstPattern statePatterns t).map fun c => String.mk (trimWS c)
      buildingZip := (firstPattern zipPatterns t).map fun c => String.mk c }

/-- The no-leading-E branch of the FH-number pattern. -/
def mFHnoE (f : Char) (r1 : List Char) : Option (List Char) :=
  match r1 with
  | h :: r2 =>
    if h.toLower == 'h' then
      let ds := r2.takeWhile Char.isDigit
      if ds.isEmpty then none else some (f :: h :: ds)
    else none
  | [] => none

/-- The FH/FEH-number pattern: F, optional E (greedy), H, then a maximal
nonempty digit run, case-insensitively. -/
def mFH (l : List Char) : Option (List Char) :=
  match l with
  | [] => none
  | f :: r1 =>
    if f.toLower == 'f' then
      match r1 with
      | e :: h :: r3 =>
        if e.toLower == 'e' && h.toLower == 'h' && !(r3.takeWhile Char.isDigit).isEmpty then
          some (f :: e :: h :: r3.takeWhile Char.isDigit)
        else mFHnoE f r1
      | _ => mFHnoE f r1
    else none

/-- Leftmost FH/FEH match of a string, upper-cased as in the source. -/
def scanFH (s : String) : Option String :=
  (scanFirst mFH s.data).map fun m => String.mk (m.map Char.toUpper)

/-- The page state consulted by `extractFHNumber`: the optional texts of
the two filtered locators, the FID search input's value, the page URL and
the body text.  A `none` models an absent element or a null text. -/
structure FHPage where
  elem1Text : Option String
  elem2Text : Option String
  fidValue : Option String
  url : String
  bodyText : Option String
deriving DecidableEq

/-- `extractFHNumber`'s four-strategy cascade: the two text locators, the
FID input value, the URL, then the whole body text. -/
def extractFHNumber (pg : FHPage) : Option String :=
  match pg.elem1Text.bind scanFH with
  | some m => some m
  | none =>
    match pg.elem2Text.bind scanFH with
    | some m => some m
    | none =>
      match pg.fidValue.bind scanFH with
      | some m => some m
      | none =>
        match scanFH pg.url with
        | some m => some m
        | none => pg.bodyText.bind scanFH

theorem firstPattern_eq_none_iff (ps : List (List Char → Option (List Char))) (t : List Char) :
    firstPattern ps t = none ↔ ∀ p ∈ ps, scanFirst p t = none := by
  induction ps with
  | nil => simp [firstPattern]
  | cons p ps ih =>
    simp only [firstPattern]
    cases h : scanFirst p t with
    | some r => simp [h]
    | none => simp [h, ih]

theorem extractFHNumber_none_iff (pg : FHPage) :
    extractFHNumber pg = none ↔
      (pg.elem1Text.bind scanFH = none ∧ pg.elem2Text.bind scanFH = none ∧
       pg.fidValue.bind scanFH = none ∧ scanFH pg.url = none ∧
       pg.bodyText.bind scanFH = none) := by
  unfold extractFHNumber
  cases h1 : pg.elem1Text.bind scanFH with
  | some m => simp [h1]
  | none =>
    cases h2 : pg.elem2Text.bind scanFH with
    | some m => simp [h2]
    | none =>
      cases h3 : pg.fidValue.bind scanFH with
      | some m => simp [h3]
      | none =>
        cases h4 : scanFH pg.url with
        | some m => simp [h4]
        | none => simp [h4]

/-- C4: for every rendered view — well-formed or malformed, including a
null body text — extraction is total (a defined record is always
returned, never an exception), every field is an optional string, and a
field is null exactly when none of its patterns matches: absent fields
yield nulls for exactly those fields. -/
theorem extraction_total_and_nullable (pg : FHPage) (s : String) :
    (extractFHNumber pg = none ↔
      (pg.elem1Text.bind scanFH = none ∧ pg.elem2Text.bind scanFH = none ∧
       pg.fidValue.bind scanFH = none ∧ scanFH pg.url = none ∧
       pg.bodyText.bind scanFH = none)) ∧
    extractCertificateInfo none = certNull ∧
    ((extractCertificateInfo (some s)).approvedAt = none ↔
      ∀ p ∈ approvedPatterns, scanFirst p (normPageText s) = none) ∧
    ((extractCertificateInfo (some s)).expirationDate = none ↔
      ∀ p ∈ expirationPatterns, scanFirst p (normPageText s) = none) ∧
    ((extractCertificateInfo (some s)).buildingAddress = none ↔
      ∀ p ∈ addressPatterns, scanFirst p (normPageText s) = none) ∧
    ((extractCertificateInfo (some s)).buildingCity = none ↔
      ∀ p ∈ cityPatterns, scanFirst p (normPageText s) = none) ∧
    ((extractCertificateInfo (some s)).buildingState = none ↔
      ∀ p ∈ statePatterns, scanFirst p (normPageText s) = none) ∧
    ((extractCertificateInfo (some s)).buildingZip = none ↔
      ∀ p ∈ zipPatterns, scanFirst p (normPageText s) = none) := by
  refine ⟨extractFHNumber_none_iff pg, rfl, ?_, ?_, ?_, ?_, ?_, ?_⟩ <;>
    simp only [extractCertificateInfo, Option.map_eq_none', firstPattern_eq_none_iff]

/-!
The candidate-selection step of the orchestrator loop
(src/src/main.js lines 666-716): the address is split on whitespace, a
candidate is clicked when its text contains both the leading token and
the joined first two name tokens case-insensitively, and otherwise Enter
is pressed.
-/

/-- Splitter for the JavaScript whitespace-run split used on the address.
The flag records whether the scanner is inside a separator run. -/
def wsFieldsGo (skipping : Bool) (acc : List Char) : List Char → List (List Char)
  | [] => if skipping then [[]] else [acc.reverse]
  | c :: cs =>
    if skipping then
      if isWS c then wsFieldsGo true [] cs
      else wsFieldsGo false [c] cs
    else
      if isWS c then acc.reverse :: wsFieldsGo true [] cs
      else wsFieldsGo false (c :: acc) cs

/-- The source's `addr.trim().split` into whitespace-separated parts. -/
def addressParts (addr : String) : List (List Char) :=
  wsFieldsGo false [] (trimWS addr.data)

/-- The leading token of the query (`addressParts[0]`). -/
def streetNumberOf (addr : String) : List Char := (addressParts addr).headD []

/-- The following name tokens (`addressParts.slice(1, 3).join(' ')`). -/
def streetNameOf (addr : String) : List Char :=
  List.intercalate [' '] (((addressParts addr).drop 1).take 2)

/-- The candidate test of the matching loop: the lower-cased candidate
text contains both lower-cased tokens as substrings.  An unreadable
candidate (`none`, a thrown text read caught by the per-item catch) never
matches. -/
def candidateMatches (addr : String) (item : Option String) : Bool :=
  match item with
  | none => false
  | some t =>
    hasSeg (lowerStr (streetNumberOf addr)) (lowerStr t.data) &&
    hasSeg (lowerStr (streetNameOf addr)) (lowerStr t.data)

/-- The action taken after the matching loop. -/
inductive SelAction where
  | clickItem (i : Nat)
  | pressEnter
deriving DecidableEq

/-- Everything the loop records into `searchResultsData`. -/
structure SelectOut where
  action : SelAction
  selectedResult : Option String
  matchFound : Bool
  resultsCount : Nat
deriving DecidableEq

/-- The matching loop itself: first candidate, in order, whose text
contains both tokens. -/
def findMatchGo (addr : String) (i : Nat) : List (Option String) → Option (Nat × String)
  | [] => none
  | item :: rest =>
    match item with
    | none => findMatchGo addr (i + 1) rest
    | some t =>
      if candidateMatches addr (some t) then some (i, t)
      else findMatchGo addr (i + 1) rest

/-- The fallback read of the first candidate's text before pressing Enter:
`selectedItemText?.trim() || null` (an empty trim is replaced by null). -/
def fallbackSelected : List (Option String) → Option String
  | [] => none
  | none :: _ => none
  | some t :: _ => if jsTrim t = ("") then none else some (jsTrim t)

/-- The candidate-selection step: click the first candidate containing
both tokens, otherwise press Enter and record the first candidate's
text. -/
def selectCandidate (addr : String) (items : List (Option String)) : SelectOut :=
  match findMatchGo addr 0 items with
  | some (i, t) => ⟨SelAction.clickItem i, some (jsTrim t), true, items.length⟩
  | none => ⟨SelAction.pressEnter, fallbackSelected items, false, items.length⟩

theorem findMatchGo_first (addr : String) : ∀ (items : List (Option String)) (k i : Nat) (t : String),
    findMatchGo addr k items = some (i, t) →
    ∃ j, i = k + j ∧ items[j]? = some (some t) ∧ candidateMatches addr (some t) = true ∧
      ∀ j' < j, ∀ u, items[j']? = some u → candidateMatches addr u = false := by
  intro items
  induction items with
  | nil => intro k i t h; simp [findMatchGo] at h
  | cons item rest ih =>
    intro k i t h
    cases item with
    | none =>
      simp only [findMatchGo] at h
      obtain ⟨j, hj, hg, hc, hfirst⟩ := ih (k + 1) i t h
      refine ⟨j + 1, by omega, by simpa using hg, hc, ?_⟩
      intro j' hj' u hu
      cases j' with
      | zero =>
        simp only [List.getElem?_cons_zero, Option.some.injEq] at hu
        subst hu; rfl
      | succ j'' =>
        simp only [List.getElem?_cons_succ] at hu
        exact hfirst j'' (by omega) u hu
    | some v =>
      simp only [findMatchGo] at h
      by_cases hc : candidateMatches addr (some v) = true
      · rw [if_pos hc] at h
        simp only [Option.some.injEq, Prod.mk.injEq] at h
        obtain ⟨h1, h2⟩ := h
        subst h2
        refine ⟨0, by omega, by simp, hc, ?_⟩
        intro j' hj'
        omega
      · rw [if_neg hc] at h
        obtain ⟨j, hj, hg, hcm, hfirst⟩ := ih (k + 1) i t h
        refine ⟨j + 1, by omega, by simpa using hg, hcm, ?_⟩
        intro j' hj' u hu
        cases j' with
        | zero =>
          simp only [List.getElem?_cons_zero, Option.some.injEq] at hu
          subst hu
          simpa using hc
        | succ j'' =>
          simp only [List.getElem?_cons_succ] at hu
          exact hfirst j'' (by omega) u hu

theorem findMatchGo_none_iff (addr : String) : ∀ (items : List (Option String)) (k : Nat),
    findMatchGo addr k items = none ↔ ∀ item ∈ items, candidateMatches addr item = false := by
  intro items
  induction items with
  | nil => intro k; simp [findMatchGo]
  | cons item rest ih =>
    intro k
    cases item with
    | none =>
      simp only [findMatchGo, List.mem_cons]
      rw [ih (k + 1)]
      constructor
      · intro h x hx
        rcases hx with hx | hx
        · subst hx; rfl
        · exact h x hx
      · intro h x hx
        exact h x (Or.inr hx)
    | some v =>
      simp only [findMatchGo, List.mem_cons]
      by_cases hc : candidateMatches addr (some v) = true
      · rw [if_pos hc]
        constructor
        · intro h
          exact Option.noConfusion h
        · intro h
          have h2 := h (some v) (Or.inl rfl)
          rw [hc] at h2
          cases h2
      · rw [if_neg hc]
        rw [ih (k + 1)]
        constructor
        · intro h x hx
          rcases hx with hx | hx
          · subst hx
            simpa using hc
          · exact h x hx
        · intro h x hx
          exact h x (Or.inr hx)

/-- C6 counterexample: with two enumerable candidates and no token match
the code presses Enter instead of clicking the first filtered candidate;
and the "match" that triggers a click is substring containment, not an
exact token match. -/
theorem selection_policy_cex :
    (selectCandidate ("513 MALAGA DRIVE")
        [some ("100 Main Rd"), some ("200 Oak Ave")]).action = SelAction.pressEnter ∧
    ([some ("100 Main Rd"), some ("200 Oak Ave")] : List (Option String)).length = 2 ∧
    (selectCandidate ("513 MALAGA DRIVE") [some ("1513 Malaga Driveway")]).action
        = SelAction.clickItem 0 := by
  decide

/-- C6 (amended): the selection policy is two-step, not three-step —
(1) click the first candidate whose text contains both the leading token
and the joined name tokens, case-insensitively as substrings; (2)
otherwise press Enter, accepting the UI highlight, regardless of whether
any candidates were enumerable. -/
theorem selection_policy (addr : String) (items : List (Option String)) :
    ((selectCandidate addr items).action = SelAction.pressEnter ↔
      ∀ item ∈ items, candidateMatches addr item = false) ∧
    (∀ i, (selectCandidate addr items).action = SelAction.clickItem i →
      ∃ t, items[i]? = some (some t) ∧ candidateMatches addr (some t) = true ∧
        ∀ j < i, ∀ u, items[j]? = some u → candidateMatches addr u = false) := by
  constructor
  · unfold selectCandidate
    cases hm : findMatchGo addr 0 items with
    | none =>
      simp only [true_iff]
      exact (findMatchGo_none_iff addr items 0).mp hm
    | some pr =>
      obtain ⟨i, t⟩ := pr
      constructor
      · intro h
        exact SelAction.noConfusion h
      · intro h
        have h2 := (findMatchGo_none_iff addr items 0).mpr h
        rw [hm] at h2
        cases h2
  · intro i h
    unfold selectCandidate at h
    cases hm : findMatchGo addr 0 items with
    | none => rw [hm] at h; cases h
    | some pr =>
      obtain ⟨i', t⟩ := pr
      rw [hm] at h
      simp only [SelAction.clickItem.injEq] at h
      subst h
      obtain ⟨j, hj, hg, hc, hfirst⟩ := findMatchGo_first addr items 0 i' t hm
      have hji : i' = j := by omega
      subst hji
      exact ⟨t, hg, hc, hfirst⟩

/-- C6 witness: the amended policy applied to a run with candidates but no
match — Enter is pressed. -/
theorem selection_policy_witness :
    (selectCandidate ("513 MALAGA DRIVE")
        [some ("100 Main Rd"), some ("742 Evergreen Terrace")]).action = SelAction.pressEnter :=
  ((selection_policy ("513 MALAGA DRIVE")
      [some ("100 Main Rd"), some ("742 Evergreen Terrace")]).1).mpr (by decide)

/-- C7: a candidate is clicked by the matching loop only if its text,
case-insensitively, contains both the leading numeric token and the
joined first two name tokens of the query; candidates lacking either are
never selected by that loop. -/
theorem candidate_clicked_only_if_contains (addr : String) (items : List (Option String)) (i : Nat)
    (h : (selectCandidate addr items).action = SelAction.clickItem i) :
    ∃ t, items[i]? = some (some t) ∧
      hasSeg (lowerStr (streetNumberOf addr)) (lowerStr t.data) = true ∧
      hasSeg (lowerStr (streetNameOf addr)) (lowerStr t.data) = true := by
  obtain ⟨t, hg, hc, _⟩ := (selection_policy addr items).2 i h
  refine ⟨t, hg, ?_, ?_⟩
  · unfold candidateMatches at hc
    simp only [Bool.and_eq_true] at hc
    exact hc.1
  · unfold candidateMatches at hc
    simp only [Bool.and_eq_true] at hc
    exact hc.2

/-- C7 witness: the containment theorem applied to a concrete matching
candidate for the spec's example query. -/
theorem candidate_clicked_witness :
    (selectCandidate ("513 MALAGA DRIVE") [some ("513 Malaga Drive, Mobile AL")]).action
        = SelAction.clickItem 0 ∧
    ∃ t, ([some ("513 Malaga Drive, Mobile AL")] : List (Option String))[0]? = some (some t) ∧
      hasSeg (lowerStr (streetNumberOf ("513 MALAGA DRIVE"))) (lowerStr t.data) = true ∧
      hasSeg (lowerStr (streetNameOf ("513 MALAGA DRIVE"))) (lowerStr t.data) = true :=
  ⟨by decide,
   candidate_clicked_only_if_contains ("513 MALAGA DRIVE")
     [some ("513 Malaga Drive, Mobile AL")] 0 (by decide)⟩

/-!
The orchestrator of `run` (src/src/main.js lines 466-966), embedded as a
structural recursion over the input address list.  The per-address browser
behaviour is supplied as explicit `ItemEnv` data: which waits succeed,
which steps throw, the dropdown texts, the page state read by the
extractors, and the capture signal.  Screenshots, timing delays and the
Google Drive mirror (external collaborators in the spec) are not part of
the embedded state.
-/

/-- A byte buffer; only content and length are relevant. -/
abbrev ByteBuf := List Nat

/-- The tagged outcome of the three-way capture race.  A download signal
carries the optionally-read stream bytes (a failed read is caught and
leaves the buffer null); a popup carries the optional body of a matching
PDF response observed inside it. -/
inductive Signal where
  | download (bytesRead : Option ByteBuf)
  | response (body : ByteBuf)
  | popup (pdfBody : Option ByteBuf)
deriving DecidableEq

/-- Byte extraction from whichever signal won the race; no signal within
the primary window plus the bounded polling window leaves the buffer
null. -/
def captureBuffer : Option Signal → Option ByteBuf
  | none => none
  | some (Signal.download b) => b
  | some (Signal.response b) => some b
  | some (Signal.popup b) => b

/-- The `buffer ? buffer.length : 0` idiom. -/
def bufLen : Option ByteBuf → Nat
  | none => 0
  | some b => b.length

/-- The character class kept verbatim by `kvSafeKey`. -/
def kvAllowed (c : Char) : Bool :=
  ('a' ≤ c && c ≤ 'z') || ('A' ≤ c && c ≤ 'Z') || ('0' ≤ c && c ≤ '9') ||
  c == '!' || c == '-' || c == '_' || c == '.' || c == '\'' || c == '(' || c == ')'

/-- Global replacement of disallowed-character runs by a single dash. -/
def kvReplaceGo (prevBad : Bool) : List Char → List Char
  | [] => []
  | c :: cs =>
    if kvAllowed c then c :: kvReplaceGo false cs
    else if prevBad then kvReplaceGo true cs
    else '-' :: kvReplaceGo true cs

/-- `kvSafeKey` of the source: sanitize and truncate to 250 characters. -/
def kvSafeKey (s : String) : String := ⟨(kvReplaceGo false s.data).take 250⟩

/-- The characters `sanitizeFileName` replaces. -/
def fileBad (c : Char) : Bool :=
  c == '\\' || c == '/' || c == ':' || c == '*' || c == '?' || c == '"' ||
  c == '<' || c == '>' || c == '|'

/-- Global replacement of bad-character runs by a single underscore. -/
def fileReplaceGo (prevBad : Bool) : List Char → List Char
  | [] => []
  | c :: cs =>
    if fileBad c then
      if prevBad then fileReplaceGo true cs else '_' :: fileReplaceGo true cs
    else c :: fileReplaceGo false cs

/-- `sanitizeFileName` of the source: sanitize and truncate to 180. -/
def sanitizeFileName (s : String) : String := ⟨(fileReplaceGo false s.data).take 180⟩

/-- The JavaScript `fhNumber || key` fallback (empty string is falsy). -/
def orElseKey (fh : Option String) (key : String) : String :=
  match fh with
  | some s => if s = ("") then key else s
  | none => key

/-- A ledger entry of the `processed_by_address` map; the source stores a
different field subset per branch, absent fields are `none` here. -/
structure Entry where
  status : String
  error : Option String := none
  fhNumber : Option String := none
  buildingAddress : Option String := none
  approvedAt : Option String := none
  expirationDate : Option String := none
  file : Option String := none
  fileSize : Nat := 0
deriving DecidableEq

/-- The persistent processed map, keyed by the normalized address; an
entry of any status makes the key truthy for the skip check. -/
abbrev Ledger := List (String × Entry)

/-- Object-property assignment on the map (overwrite, never delete). -/
def ledgerPut (led : Ledger) (k : String) (e : Entry) : Ledger := (k, e) :: led

/-- One ResultRecord pushed to the dataset; branch-specific fields default
to their absent value.  Timestamps, screenshot URLs and Drive fields are
diagnostics outside the embedding. -/
structure Record where
  address : String
  searchAddress : String
  status : String
  success : Bool
  error : Option String := none
  searchResultsCount : Nat := 0
  selectedResult : Option String := none
  matchFound : Bool := false
  fhNumber : Option String := none
  buildingAddress : Option String := none
  approvedAt : Option String := none
  expirationDate : Option String := none
  certificateFile : Option String := none
  fileName : Option String := none
  fileSize : Nat := 0
deriving DecidableEq

/-- The per-address behaviour of the browser environment in the first
pipeline iteration: which waits succeed, which uncaught awaits throw
(`wizardError` covers the post-New-Evaluation load wait and the
Redesignation wait/click/load sequence, none of which is inside a
per-address catch), the search-block outcome, the dropdown texts, the
page state read by the extractors, and the capture signal. -/
structure ItemEnv where
  newEvalVisible : Bool
  wizardError : Option String
  searchFieldFound : Bool
  searchError : Option String
  items : List (Option String)
  fhPage : FHPage
  hasDownloadButton : Bool
  downloadClickError : Option String
  signal : Option Signal
  returnNavError : Option String
deriving DecidableEq

/-- What processing one address produces: either bookkeeping plus
continue, or an uncaught exception that halts the whole run (with
whatever bookkeeping had already happened). -/
inductive StepResult where
  | cont (recOpt : Option Record) (entry : Entry) (kv : List (String × ByteBuf))
  | halt (recOpt : Option Record) (entryOpt : Option Entry) (kv : List (String × ByteBuf))
      (handledInc : Bool) (err : String)
deriving DecidableEq

/-- The per-address body of the loop in the first iteration, after the
skip checks.  Branch order follows the source: New-Evaluation visibility
(caught: navigation_error), the wizard sequence (uncaught: halts), the
search-field check (no_search_field), the search try block (caught:
search_failed), the download-button check (no_certificate), the download
click (uncaught: halts), then the capture race and persistence. -/
def processAddr (rsd : Bool) (addr key : String) (env : ItemEnv) : StepResult :=
  if !env.newEvalVisible then
    let r0 : Record :=
      { address := addr, searchAddress := key, status := ("navigation_error"),
        success := false, error := some ("New Evaluation button not visible") }
    StepResult.cont (if rsd then some r0 else none) { status := ("navigation_error") } []
  else
    match env.wizardError with
    | some m => StepResult.halt none none [] false m
    | none =>
      if !env.searchFieldFound then
        let r1 : Record :=
          { address := addr, searchAddress := key, status := ("no_search_field"),
            success := false,
            error := some ("Search field not found in redesignation flow") }
        StepResult.cont (if rsd then some r1 else none) { status := ("no_search_field") } []
      else
        match env.searchError with
        | some m =>
          let r2 : Record :=
            { address := addr, searchAddress := key, status := ("search_failed"),
              success := false, error := some (("Search failed: ") ++ m) }
          StepResult.cont (if rsd then some r2 else none)
            { status := ("search_failed"), error := some m } []
        | none =>
          let sel := selectCandidate addr env.items
          let fh := extractFHNumber env.fhPage
          let cert := extractCertificateInfo env.fhPage.bodyText
          if !env.hasDownloadButton then
            let r3 : Record :=
              { address := addr, searchAddress := key, status := ("no_certificate"),
                success := false, error := some ("No download button found"),
                searchResultsCount := sel.resultsCount,
                selectedResult := sel.selectedResult, matchFound := sel.matchFound,
                fhNumber := fh, buildingAddress := cert.buildingAddress,
                approvedAt := cert.approvedAt, expirationDate := cert.expirationDate }
            let en : Entry :=
              { status := ("no_certificate"), fhNumber := fh,
                buildingAddress := cert.buildingAddress, approvedAt := cert.approvedAt,
                expirationDate := cert.expirationDate }
            match env.returnNavError with
            | some m => StepResult.halt (if rsd then some r3 else none) (some en) [] true m
            | none => StepResult.cont (if rsd then some r3 else none) en []
          else
            match env.downloadClickError with
            | some m => StepResult.halt none none [] false m
            | none =>
              let buffer := captureBuffer env.signal
              let base := orElseKey fh key
              let expTail : String :=
                match cert.expirationDate with
                | some e => (" - Expires ") ++ e
                | none => ("")
              let basePretty := collapseWS ((base ++ expTail).data)
              let prettyName := sanitizeFileName (String.mk basePretty ++ (".pdf"))
              let kvName := kvSafeKey (base ++ ("-certificate.pdf"))
              let kv : List (String × ByteBuf) :=
                match buffer with
                | some b => if b.length > 0 then [(kvName, b)] else []
                | none => []
              let st := if bufLen buffer > 0 then ("downloaded") else ("empty_pdf")
              let r4 : Record :=
                { address := addr, searchAddress := key, status := st, success := true,
                  searchResultsCount := sel.resultsCount,
                  selectedResult := sel.selectedResult, matchFound := sel.matchFound,
                  fhNumber := fh, buildingAddress := cert.buildingAddress,
                  approvedAt := cert.approvedAt, expirationDate := cert.expirationDate,
                  certificateFile := some kvName, fileName := some prettyName,
                  fileSize := bufLen buffer }
              let en : Entry :=
                { status := st, file := some kvName, fhNumber := fh,
                  buildingAddress := cert.buildingAddress, fileSize := bufLen buffer,
                  approvedAt := cert.approvedAt, expirationDate := cert.expirationDate }
              match env.returnNavError with
              | some m => StepResult.halt (if rsd then some r4 else none) (some en) kv false m
              | none => StepResult.cont (if rsd then some r4 else none) en kv

/-- The outcome of a whole run: emitted records, final ledger, key-value
writes of certificate PDFs, the normalized keys attempted (the record
locator flow entered), the uncaught exception if the run died, and the
`handled` counter. -/
structure RunResult where
  records : List Record
  ledger : Ledger
  kvWrites : List (String × ByteBuf)
  attempts : List String
  aborted : Option String
  handled : Nat
deriving DecidableEq

/-- The address loop of `run`: cap check, trim, normalize, empty-key
continue, processed-map skip, then the per-address body; every
bookkeeping branch persists the ledger before the next address. -/
def runLoop (rsd : Bool) (cap : Nat) : List (String × ItemEnv) → Nat → Ledger → RunResult
  | [], h, led => ⟨[], led, [], [], none, h⟩
  | (raw, env) :: rest, h, led =>
    if cap ≤ h then ⟨[], led, [], [], none, h⟩
    else
      let addr := jsTrim raw
      let key := normalizeAddress addr
      if key = ("") then runLoop rsd cap rest h led
      else if (led.lookup key).isSome then runLoop rsd cap rest h led
      else
        match processAddr rsd addr key env with
        | StepResult.cont recOpt entry kv =>
          let r := runLoop rsd cap rest (h + 1) (ledgerPut led key entry)
          ⟨recOpt.toList ++ r.records, r.ledger, kv ++ r.kvWrites, key :: r.attempts,
            r.aborted, r.handled⟩
        | StepResult.halt recOpt entryOpt kv hinc err =>
          ⟨recOpt.toList,
            (match entryOpt with
             | some e => ledgerPut led key e
             | none => led),
            kv, [key], some err, if hinc then h + 1 else h⟩

/-- The login-page state consulted by `ensureLoggedIn`: a navigation
failure (rethrown by the source) and whether the email field is still
present after the completion race, the retry and the dashboard wait. -/
structure LoginPage where
  gotoError : Option String
  emailStillPresent : Bool
deriving DecidableEq

/-- The error message thrown when credential controls are still present. -/
def authFailMsg : String :=
  "Login did not complete (email field still visible). Check credentials or selector."

/-- `ensureLoggedIn`: rethrow a navigation failure, then fail with the
authentication error exactly when the email field survives the race. -/
def ensureLoggedIn (pg : LoginPage) : Except String Unit :=
  match pg.gotoError with
  | some m => Except.error m
  | none => if pg.emailStillPresent then Except.error authFailMsg else Except.ok ()

/-- The whole first-iteration run: login once, then the address loop; a
login failure aborts before any address is read. -/
def runV1 (pg : LoginPage) (rsd : Bool) (cap : Nat) (items : List (String × ItemEnv))
    (led : Ledger) : RunResult :=
  match ensureLoggedIn pg with
  | Except.error e => ⟨[], led, [], [], some e, 0⟩
  | Except.ok _ => runLoop rsd cap items 0 led

/-!
The second iteration of the pipeline (after the document separator in
src/src/main.js, lines 968-1656) wraps every per-address step in one
try/catch; only the inter-address page re-navigation stays outside it.
-/

/-- The output of the popup extractor of the second iteration; its
table-walking DOM logic is external, so the run model takes its result. -/
structure PopupData where
  fhNumber : Option String
  approvedAt : Option String
  expirationDate : Option String
  buildingAddress : Option String
deriving DecidableEq

/-- Per-address environment of the second iteration: one `stepError`
represents any throw inside the per-address try block (wizard waits,
search, stream reads); the download event carries the optional stream
bytes. -/
structure ItemEnvV2 where
  stepError : Option String
  popup : PopupData
  downloadButtonFound : Bool
  downloadSignal : Option (Option ByteBuf)
  returnNavError : Option String
deriving DecidableEq

/-- One result row of the second iteration. -/
structure RecordV2 where
  address : String
  searchAddress : String
  status : String
  success : Bool
  error : Option String := none
  fhNumber : Option String := none
  approvedAt : Option String := none
  expirationDate : Option String := none
  buildingAddress : Option String := none
  certificateFile : Option String := none
deriving DecidableEq

/-- The try/catch body of the second iteration: a caught step error yields
the error row (fields hold what was populated before the throw; the model
presents the early-throw case with null fields), a completed pass yields
status "completed" with the popup fields and an optional stored PDF. -/
def processAddrV2 (addr key : String) (env : ItemEnvV2) :
    RecordV2 × Entry × List (String × ByteBuf) :=
  match env.stepError with
  | some m =>
    (⟨addr, key, ("error"), false, some m, none, none, none, none, none⟩,
     { status := ("error") }, [])
  | none =>
    let pd := env.popup
    let bufOpt : Option ByteBuf :=
      if env.downloadButtonFound then
        match env.downloadSignal with
        | some (some b) => some b
        | _ => none
      else none
    let kvName := kvSafeKey ((orElseKey pd.fhNumber key) ++ ("-certificate.pdf"))
    let stored : Bool :=
      match bufOpt with
      | some b => b.length != 0
      | none => false
    let kvPairs : List (String × ByteBuf) :=
      match bufOpt with
      | some b => if b.length > 0 then [(kvName, b)] else []
      | none => []
    (⟨addr, key, ("completed"), true, none, pd.fhNumber, pd.approvedAt,
        pd.expirationDate, pd.buildingAddress, if stored then some kvName else none⟩,
     { status := ("completed"), fhNumber := pd.fhNumber, approvedAt := pd.approvedAt,
       expirationDate := pd.expirationDate }, kvPairs)

/-- Run outcome of the second iteration. -/
structure RunResultV2 where
  records : List RecordV2
  ledger : Ledger
  kvWrites : List (String × ByteBuf)
  attempts : List String
  aborted : Option String
  handled : Nat
deriving DecidableEq

/-- The address loop of the second iteration: same skip logic; the row is
pushed and the ledger written for success and for every caught failure
before the (uncaught) return navigation. -/
def runLoopV2 (cap : Nat) : List (String × ItemEnvV2) → Nat → Ledger → RunResultV2
  | [], h, led => ⟨[], led, [], [], none, h⟩
  | (raw, env) :: rest, h, led =>
    if cap ≤ h then ⟨[], led, [], [], none, h⟩
    else
      let addr := jsTrim raw
      let key := normalizeAddress addr
      if key = ("") then runLoopV2 cap rest h led
      else if (led.lookup key).isSome then runLoopV2 cap rest h led
      else
        let out := processAddrV2 addr key env
        match env.returnNavError with
        | some m => ⟨[out.1], ledgerPut led key out.2.1, out.2.2, [key], some m, h⟩
        | none =>
          let r := runLoopV2 cap rest (h + 1) (ledgerPut led key out.2.1)
          ⟨out.1 :: r.records, r.ledger, out.2.2 ++ r.kvWrites, key :: r.attempts,
            r.aborted, r.handled⟩

/-- An empty page state for concrete scenarios. -/
def pageEmpty : FHPage := ⟨none, none, none, (""), none⟩

/-- A per-address environment in which every step succeeds and the race
yields a three-byte PDF response. -/
def envGood : ItemEnv :=
  ⟨true, none, true, none, [], pageEmpty, true, none, some (Signal.response [1, 2, 3]), none⟩

/-- C2 counterexample: a ledger entry whose status records a failure
(search_failed, not a success status) also causes the skip — the address
is not processed again, the locator is never entered and no record is
emitted, contradicting the claim that only prior-success entries skip. -/
theorem skip_on_failure_entry_cex :
    (runLoop true 100 [(("513 Malaga Drive"), envGood)] 0
        [(("513 malaga drive"), { status := ("search_failed") })]).attempts = [] ∧
    (runLoop true 100 [(("513 Malaga Drive"), envGood)] 0
        [(("513 malaga drive"), { status := ("search_failed") })]).records = [] ∧
    ({ status := ("search_failed") } : Entry).status ≠ ("downloaded") ∧
    ({ status := ("search_failed") } : Entry).status ≠ ("empty_pdf") := by
  decide

/-- C2 (amended): an address with a nonempty normalized key and capacity
remaining is skipped — the locator flow is never entered, no record is
emitted and the ledger is unchanged — exactly when the ledger holds an
entry for its key of ANY status, success or failure alike. -/
theorem skip_iff_ledger_entry (raw : String) (env : ItemEnv) (led : Ledger)
    (rsd : Bool) (cap : Nat) (hcap : 0 < cap)
    (hkey : normalizeAddress (jsTrim raw) ≠ ("")) :
    ((led.lookup (normalizeAddress (jsTrim raw))).isSome ↔
      (runLoop rsd cap [(raw, env)] 0 led).attempts = []) ∧
    ((led.lookup (normalizeAddress (jsTrim raw))).isSome →
      runLoop rsd cap [(raw, env)] 0 led = ⟨[], led, [], [], none, 0⟩) := by
  have hc : ¬ (cap ≤ 0) := by omega
  cases hl : led.lookup (normalizeAddress (jsTrim raw)) with
  | some e =>
    have hrun : runLoop rsd cap [(raw, env)] 0 led = ⟨[], led, [], [], none, 0⟩ := by
      simp [runLoop, hc, hkey, hl]
    refine ⟨⟨fun _ => by rw [hrun], fun _ => by simp [hl]⟩, fun _ => hrun⟩
  | none =>
    have hns : ((none : Option Entry)).isSome = false := rfl
    constructor
    · constructor
      · intro hs; rw [hns] at hs; cases hs
      · intro hat
        exfalso
        simp only [runLoop, hc, if_false, hkey, hl] at hat
        cases hp : processAddr rsd (jsTrim raw) (normalizeAddress (jsTrim raw)) env with
        | cont recOpt entry kv => rw [hp] at hat; cases hat
        | halt recOpt entryOpt kv hinc err => rw [hp] at hat; cases hat
    · intro hs; rw [hns] at hs; cases hs

/-- C2 witness: the skip characterization at a ledger holding a failure
entry — the lookup succeeds and the attempt list is empty. -/
theorem skip_iff_ledger_entry_witness :
    0 < 100 ∧ normalizeAddress (jsTrim ("513 Malaga Drive")) ≠ ("") ∧
    ((([(("513 malaga drive"), ({ status := ("search_failed") } : Entry))] : Ledger).lookup
        (normalizeAddress (jsTrim ("513 Malaga Drive")))).isSome ↔
      (runLoop true 100 [(("513 Malaga Drive"), envGood)] 0
        [(("513 malaga drive"), { status := ("search_failed") })]).attempts = []) :=
  ⟨by decide, by decide,
   (skip_iff_ledger_entry ("513 Malaga Drive") envGood
      [(("513 malaga drive"), { status := ("search_failed") })] true 100
      (by decide) (by decide)).1⟩

/-- C3: when no capture channel yields a signal the buffer stays null —
an empty artifact, not an exception; the address's record carries the
non-error status "empty_pdf" with success true; and a PDF is written to
the key-value store if and only if the captured byte length is positive. -/
theorem artifact_empty_and_persist_gate (raw : String) (env : ItemEnv) (led : Ledger)
    (cap : Nat) (hcap : 0 < cap)
    (hkey : normalizeAddress (jsTrim raw) ≠ (""))
    (hnew : led.lookup (normalizeAddress (jsTrim raw)) = none)
    (h1 : env.newEvalVisible = true) (h2 : env.wizardError = none)
    (h3 : env.searchFieldFound = true) (h4 : env.searchError = none)
    (h5 : env.hasDownloadButton = true) (h6 : env.downloadClickError = none)
    (h7 : env.returnNavError = none) :
    captureBuffer none = none ∧
    ((runLoop true cap [(raw, env)] 0 led).kvWrites = [] ↔
      bufLen (captureBuffer env.signal) = 0) ∧
    (env.signal = none →
      ∃ r, (runLoop true cap [(raw, env)] 0 led).records = [r] ∧
        r.status = ("empty_pdf") ∧ r.success = true ∧ r.fileSize = 0 ∧
        (runLoop true cap [(raw, env)] 0 led).kvWrites = [] ∧
        (runLoop true cap [(raw, env)] 0 led).aborted = none) := by
  have hc : ¬ (cap ≤ 0) := by omega
  refine ⟨rfl, ?_, ?_⟩
  · simp only [runLoop, hc, if_false, hkey, hnew, Option.isSome_none,
      processAddr, h1, h2, h3, h4, h5, h6, h7, Bool.not_true]
    cases hb : captureBuffer env.signal with
    | none => simp [bufLen]
    | some b =>
      cases hlen : b.length with
      | zero => simp [bufLen, hlen]
      | succ n => simp [bufLen, hlen]
  · intro hsig
    simp only [runLoop, hc, if_false, hkey, hnew, Option.isSome_none,
      processAddr, h1, h2, h3, h4, h5, h6, h7, Bool.not_true, hsig]
    simp [captureBuffer, bufLen]

/-- C3 witness: the gate theorem applied to a concrete run in which the
capture race produces no signal at all. -/
theorem artifact_empty_witness :
    ∃ r, (runLoop true 100 [(("1 A Rd"), { envGood with signal := none })] 0 []).records = [r] ∧
      r.status = ("empty_pdf") ∧ r.success = true ∧ r.fileSize = 0 ∧
      (runLoop true 100 [(("1 A Rd"), { envGood with signal := none })] 0 []).kvWrites = [] ∧
      (runLoop true 100 [(("1 A Rd"), { envGood with signal := none })] 0 []).aborted = none :=
  (artifact_empty_and_persist_gate ("1 A Rd") { envGood with signal := none } [] 100
    (by decide) (by decide) rfl rfl rfl rfl rfl rfl rfl rfl).2.2 rfl

/-- C5 counterexample: a timeout in the Redesignation wizard step of the
first iteration is not caught at the per-address boundary — the run
aborts, no ResultRecord is written for the address, the ledger stays
unchanged and the following address is never attempted. -/
theorem wizard_failure_aborts_cex :
    (runLoop true 100
        [(("1 A Rd"), { envGood with wizardError := some ("Timeout 30000ms exceeded") }),
         (("2 B Rd"), envGood)] 0 []).aborted = some ("Timeout 30000ms exceeded") ∧
    (runLoop true 100
        [(("1 A Rd"), { envGood with wizardError := some ("Timeout 30000ms exceeded") }),
         (("2 B Rd"), envGood)] 0 []).records = [] ∧
    (runLoop true 100
        [(("1 A Rd"), { envGood with wizardError := some ("Timeout 30000ms exceeded") }),
         (("2 B Rd"), envGood)] 0 []).ledger = [] ∧
    (runLoop true 100
        [(("1 A Rd"), { envGood with wizardError := some ("Timeout 30000ms exceeded") }),
         (("2 B Rd"), envGood)] 0 []).attempts = [("1 a rd")] := by
  decide

/-- C5 (amended): the per-address failure boundary is partial in the
first iteration and total in the second.  (1) A throw inside the search
try block is caught: a search_failed record is emitted, the ledger is
updated and the loop advances to the remaining addresses.  (2) A missing
New-Evaluation button is likewise caught as navigation_error.  (3) A
failure in the wizard sequence (the post-click load waits or the
Redesignation click) is NOT caught: the run halts with no record for the
address and the remaining addresses unprocessed.  (4) In the second
iteration every failure inside the per-address try block is caught,
recorded with status "error" and the error message, the ledger is
updated, and the loop advances. -/
theorem per_address_failure_boundary (raw m : String) (env : ItemEnv)
    (rest : List (String × ItemEnv)) (led : Ledger) (cap : Nat)
    (envB : ItemEnvV2) (restB : List (String × ItemEnvV2))
    (hcap : 0 < cap)
    (hkey : normalizeAddress (jsTrim raw) ≠ (""))
    (hnew : led.lookup (normalizeAddress (jsTrim raw)) = none) :
    (env.newEvalVisible = true → env.wizardError = none → env.searchFieldFound = true →
      env.searchError = some m →
      runLoop true cap ((raw, env) :: rest) 0 led =
        (let key := normalizeAddress (jsTrim raw)
         let r := runLoop true cap rest 1
           (ledgerPut led key { status := ("search_failed"), error := some m })
         ⟨{ address := jsTrim raw, searchAddress := key, status := ("search_failed"),
            success := false, error := some (("Search failed: ") ++ m) } :: r.records,
          r.ledger, r.kvWrites, key :: r.attempts, r.aborted, r.handled⟩)) ∧
    (env.newEvalVisible = false →
      runLoop true cap ((raw, env) :: rest) 0 led =
        (let key := normalizeAddress (jsTrim raw)
         let r := runLoop true cap rest 1
           (ledgerPut led key { status := ("navigation_error") })
         ⟨{ address := jsTrim raw, searchAddress := key, status := ("navigation_error"),
            success := false, error := some ("New Evaluation button not visible") } :: r.records,
          r.ledger, r.kvWrites, key :: r.attempts, r.aborted, r.handled⟩)) ∧
    (env.newEvalVisible = true → env.wizardError = some m →
      runLoop true cap ((raw, env) :: rest) 0 led =
        ⟨[], led, [], [normalizeAddress (jsTrim raw)], some m, 0⟩) ∧
    (envB.stepError = some m → envB.returnNavError = none →
      runLoopV2 cap ((raw, envB) :: restB) 0 led =
        (let key := normalizeAddress (jsTrim raw)
         let r := runLoopV2 cap restB 1 (ledgerPut led key { status := ("error") })
         ⟨⟨jsTrim raw, key, ("error"), false, some m, none, none, none, none, none⟩ :: r.records,
          r.ledger, r.kvWrites, key :: r.attempts, r.aborted, r.handled⟩)) := by
  have hc : ¬ (cap ≤ 0) := by omega
  refine ⟨?_, ?_, ?_, ?_⟩
  · intro e1 e2 e3 e4
    simp [runLoop, hc, hkey, hnew, processAddr, e1, e2, e3, e4]
  · intro e1
    simp [runLoop, hc, hkey, hnew, processAddr, e1]
  · intro e1 e2
    simp [runLoop, hc, hkey, hnew, processAddr, e1, e2]
  · intro e1 e2
    simp [runLoopV2, hc, hkey, hnew, processAddrV2, e1, e2]

/-- C5 witness: the boundary theorem applied to concrete runs — a caught
search failure advances past the address, an uncaught wizard failure
halts the run. -/
theorem per_address_failure_boundary_witness :
    runLoop true 100 [(("1 A Rd"), { envGood with searchError := some ("locator timeout") })]
        0 [] =
      ⟨[{ address := ("1 A Rd"), searchAddress := ("1 a rd"), status := ("search_failed"),
          success := false, error := some ("Search failed: locator timeout") }],
        [(("1 a rd"), { status := ("search_failed"), error := some ("locator timeout") })],
        [], [("1 a rd")], none, 1⟩ ∧
    runLoop true 100 [(("1 A Rd"), { envGood with wizardError := some ("Timeout") })] 0 [] =
      ⟨[], [], [], [("1 a rd")], some ("Timeout"), 0⟩ :=
  ⟨(per_address_failure_boundary ("1 A Rd") ("locator timeout")
      { envGood with searchError := some ("locator timeout") } [] [] 100
      ⟨none, ⟨none, none, none, none⟩, false, none, none⟩ []
      (by decide) (by decide) rfl).1 rfl rfl rfl rfl,
   (per_address_failure_boundary ("1 A Rd") ("Timeout")
      { envGood with wizardError := some ("Timeout") } [] [] 100
      ⟨none, ⟨none, none, none, none⟩, false, none, none⟩ []
      (by decide) (by decide) rfl).2.2.1 rfl rfl⟩

/-- C8: when the credential controls are still present after the
completion race and the retry, `ensureLoggedIn` fails with the
authentication error and the run aborts before the loop: no address is
attempted, no record is emitted and no ledger entry is written. -/
theorem auth_failure_aborts_run (pg : LoginPage) (rsd : Bool) (cap : Nat)
    (items : List (String × ItemEnv)) (led : Ledger)
    (h1 : pg.gotoError = none) (h2 : pg.emailStillPresent = true) :
    runV1 pg rsd cap items led = ⟨[], led, [], [], some authFailMsg, 0⟩ := by
  unfold runV1 ensureLoggedIn
  rw [h1, h2]
  simp

/-- C8 witness: the abort theorem at a concrete failed login. -/
theorem auth_failure_aborts_run_witness :
    runV1 ⟨none, true⟩ true 100 [(("1 A Rd"), envGood)] [] =
      ⟨[], [], [], [], some authFailMsg, 0⟩ :=
  auth_failure_aborts_run ⟨none, true⟩ true 100 [(("1 A Rd"), envGood)] [] rfl rfl

theorem runLoop_cons_break {rsd : Bool} {cap : Nat} {raw : String} {env : ItemEnv}
    {rest : List (String × ItemEnv)} {h : Nat} {led : Ledger} (hc : cap ≤ h) :
    runLoop rsd cap ((raw, env) :: rest) h led = ⟨[], led, [], [], none, h⟩ := by
  simp [runLoop, hc]

theorem runLoop_cons_emptyKey {rsd : Bool} {cap : Nat} {raw : String} {env : ItemEnv}
    {rest : List (String × ItemEnv)} {h : Nat} {led : Ledger} (hc : ¬ cap ≤ h)
    (hkey : normalizeAddress (jsTrim raw) = ("")) :
    runLoop rsd cap ((raw, env) :: rest) h led = runLoop rsd cap rest h led := by
  simp [runLoop, hc, hkey]

theorem runLoop_cons_skip {rsd : Bool} {cap : Nat} {raw : String} {env : ItemEnv}
    {rest : List (String × ItemEnv)} {h : Nat} {led : Ledger} {e : Entry} (hc : ¬ cap ≤ h)
    (hkey : normalizeAddress (jsTrim raw) ≠ (""))
    (hl : led.lookup (normalizeAddress (jsTrim raw)) = some e) :
    runLoop rsd cap ((raw, env) :: rest) h led = runLoop rsd cap rest h led := by
  simp [runLoop, hc, hkey, hl]

theorem runLoop_cons_cont {rsd : Bool} {cap : Nat} {raw : String} {env : ItemEnv}
    {rest : List (String × ItemEnv)} {h : Nat} {led : Ledger}
    {recOpt : Option Record} {entry : Entry} {kv : List (String × ByteBuf)}
    (hc : ¬ cap ≤ h) (hkey : normalizeAddress (jsTrim raw) ≠ (""))
    (hl : led.lookup (normalizeAddress (jsTrim raw)) = none)
    (hp : processAddr rsd (jsTrim raw) (normalizeAddress (jsTrim raw)) env
        = StepResult.cont recOpt entry kv) :
    runLoop rsd cap ((raw, env) :: rest) h led =
      (let r := runLoop rsd cap rest (h + 1)
         (ledgerPut led (normalizeAddress (jsTrim raw)) entry)
       ⟨recOpt.toList ++ r.records, r.ledger, kv ++ r.kvWrites,
         normalizeAddress (jsTrim raw) :: r.attempts, r.aborted, r.handled⟩) := by
  simp [runLoop, hc, hkey, hl, hp]

theorem runLoop_cons_halt {rsd : Bool} {cap : Nat} {raw : String} {env : ItemEnv}
    {rest : List (String × ItemEnv)} {h : Nat} {led : Ledger}
    {recOpt : Option Record} {entryOpt : Option Entry} {kv : List (String × ByteBuf)}
    {hinc : Bool} {err : String}
    (hc : ¬ cap ≤ h) (hkey : normalizeAddress (jsTrim raw) ≠ (""))
    (hl : led.lookup (normalizeAddress (jsTrim raw)) = none)
    (hp : processAddr rsd (jsTrim raw) (normalizeAddress (jsTrim raw)) env
        = StepResult.halt recOpt entryOpt kv hinc err) :
    runLoop rsd cap ((raw, env) :: rest) h led =
      ⟨recOpt.toList,
        (match entryOpt with
         | some e => ledgerPut led (normalizeAddress (jsTrim raw)) e
         | none => led),
        kv, [normalizeAddress (jsTrim raw)], some err, if hinc then h + 1 else h⟩ := by
  simp only [runLoop, hc, if_false, hkey, hl, Option.isSome_none, hp]
  cases entryOpt <;> simp

theorem lookup_ledgerPut_self (led : Ledger) (k : String) (e : Entry) :
    (ledgerPut led k e).lookup k = some e := by
  simp [ledgerPut, List.lookup]

theorem lookup_ledgerPut_of_lookup {led : Ledger} {k k' : String} {e : Entry}
    (h : (ledgerPut led k e).lookup k' = none) : led.lookup k' = none := by
  simp only [ledgerPut, List.lookup] at h
  cases hkk : (k' == k) with
  | true => rw [hkk] at h; cases h
  | false => rw [hkk] at h; exact h

theorem runLoop_attempts_fresh (rsd : Bool) (cap : Nat) :
    ∀ (l : List (String × ItemEnv)) (h : Nat) (led : Ledger) (k : String),
    k ∈ (runLoop rsd cap l h led).attempts → led.lookup k = none := by
  intro l
  induction l with
  | nil => intro h led k hk; simp [runLoop] at hk
  | cons x rest ih =>
    intro h led k hk
    obtain ⟨raw, env⟩ := x
    by_cases hc : cap ≤ h
    · rw [runLoop_cons_break hc] at hk
      simp at hk
    · by_cases hkey : normalizeAddress (jsTrim raw) = ("")
      · rw [runLoop_cons_emptyKey hc hkey] at hk
        exact ih h led k hk
      · cases hl : led.lookup (normalizeAddress (jsTrim raw)) with
        | some e =>
          rw [runLoop_cons_skip hc hkey hl] at hk
          exact ih h led k hk
        | none =>
          cases hp : processAddr rsd (jsTrim raw) (normalizeAddress (jsTrim raw)) env with
          | cont recOpt entry kv =>
            rw [runLoop_cons_cont hc hkey hl hp] at hk
            simp only [List.mem_cons] at hk
            rcases hk with hk | hk
            · subst hk; exact hl
            · exact lookup_ledgerPut_of_lookup (ih (h + 1) _ k hk)
          | halt recOpt entryOpt kv hinc err =>
            rw [runLoop_cons_halt hc hkey hl hp] at hk
            simp only [List.mem_singleton] at hk
            subst hk; exact hl

/-- C9: within a single run each normalized key is attempted at most once
— the ledger entry written and persisted at the end of every attempt
makes any later duplicate key skip, so the attempt list has no duplicate
keys, for every input list, starting ledger, cap and environment. -/
theorem at_most_one_attempt_per_key (rsd : Bool) (cap : Nat) :
    ∀ (l : List (String × ItemEnv)) (h : Nat) (led : Ledger),
    (runLoop rsd cap l h led).attempts.Nodup := by
  intro l
  induction l with
  | nil => intro h led; simp [runLoop]
  | cons x rest ih =>
    intro h led
    obtain ⟨raw, env⟩ := x
    by_cases hc : cap ≤ h
    · rw [runLoop_cons_break hc]
      simp
    · by_cases hkey : normalizeAddress (jsTrim raw) = ("")
      · rw [runLoop_cons_emptyKey hc hkey]
        exact ih h led
      · cases hl : led.lookup (normalizeAddress (jsTrim raw)) with
        | some e =>
          rw [runLoop_cons_skip hc hkey hl]
          exact ih h led
        | none =>
          cases hp : processAddr rsd (jsTrim raw) (normalizeAddress (jsTrim raw)) env with
          | cont recOpt entry kv =>
            rw [runLoop_cons_cont hc hkey hl hp]
            simp only [List.nodup_cons]
            constructor
            · intro hmem
              have hfresh := runLoop_attempts_fresh rsd cap rest (h + 1)
                (ledgerPut led (normalizeAddress (jsTrim raw)) entry)
                (normalizeAddress (jsTrim raw)) hmem
              rw [lookup_ledgerPut_self] at hfresh
              cases hfresh
            · exact ih (h + 1) (ledgerPut led (normalizeAddress (jsTrim raw)) entry)
          | halt recOpt entryOpt kv hinc err =>
            rw [runLoop_cons_halt hc hkey hl hp]
            simp

/-- C10: an input whose normalized key is empty (empty, whitespace-only
or punctuation-only strings) is silently dropped: the loop iteration is a
no-op — no record, no ledger write, no attempt, and the handled counter
that enforces the per-run cap does not advance. -/
theorem empty_key_skipped (raw : String) (env : ItemEnv) (rest : List (String × ItemEnv))
    (rsd : Bool) (cap : Nat) (h : Nat) (led : Ledger)
    (hkey : normalizeAddress (jsTrim raw) = ("")) :
    runLoop rsd cap ((raw, env) :: rest) h led = runLoop rsd cap rest h led := by
  by_cases hc : cap ≤ h
  · cases rest with
    | nil => simp [runLoop, hc]
    | cons y ys =>
      obtain ⟨r2, e2⟩ := y
      simp [runLoop, hc]
  · simp [runLoop, hc, hkey]

/-- C10 witness: the no-op theorem applied to a punctuation-only input in
front of a real address. -/
theorem empty_key_skipped_witness :
    normalizeAddress (jsTrim (" . , ")) = ("") ∧
    runLoop true 100 [((" . , "), envGood), (("1 A Rd"), envGood)] 0 [] =
      runLoop true 100 [(("1 A Rd"), envGood)] 0 [] :=
  ⟨by decide, empty_key_skipped (" . , ") envGood [(("1 A Rd"), envGood)] true 100 0 []
    (by decide)⟩

end IbhsCert
